import Mathlib

/-!
# Epoch geometry over fixated parameters (x/epochstorage/keeper/params.go)

A shallow embedding of the epoch calculator of the epochstorage keeper.

* Unsigned 64-bit integers are natural numbers; every arithmetic operation of the
  source reduces its result modulo `2^64`.
* A Go call that may stop with a runtime panic returns `Except Panic _`; a Go
  `error` result is an `Option GoError` (`none` is the nil error).
* The keeper code that lives outside `params.go` (the fixation lookup, the codec,
  the error formatter) is a field of `Keeper`, or is modelled from the
  specification where a doc comment says so.
-/

namespace Lava

/-! ## Machine integers -/

/-- Number of values of a Go uint64. -/
def UINT64 : Nat := 18446744073709551616

/-- Conversion of a natural number into the uint64 range. -/
def u64 (n : Nat) : Nat := n % UINT64

/-- Go uint64 addition (wraps around). -/
def add64 (a b : Nat) : Nat := (a + b) % UINT64

/-- Go uint64 subtraction (wraps around). -/
def sub64 (a b : Nat) : Nat := (a + (UINT64 - b % UINT64)) % UINT64

/-- Go uint64 multiplication (wraps around). -/
def mul64 (a b : Nat) : Nat := (a * b) % UINT64

/-! ## Errors and panics -/

/-- A Go error value, identified by the message its Error method returns. -/
structure GoError where
  Error : String
deriving DecidableEq, Repr

/-- The Go runtime panics the code of params.go can raise. -/
inductive Panic where
  | divideByZero
  | nilDereference
deriving DecidableEq, Repr

deriving instance DecidableEq for Except

/-- Go fmt.Errorf, applied to the already formatted message. -/
def Errorf (msg : String) : GoError := ⟨msg⟩

/-! ## Keeper environment -/

/-- The parameter keys params.go reads (types.KeyUnstakeHoldBlocks and so on). -/
inductive ParamKey where
  | KeyUnstakeHoldBlocks
  | KeyEpochBlocks
  | KeyEpochsToSave
  | KeyLatestParamChange
deriving DecidableEq, Repr

/-- The fields of types.FixatedParams that params.go reads: the serialized
parameter and the block at which it was fixated. -/
structure FixatedParams where
  Parameter : List Nat
  FixationBlock : Nat
deriving DecidableEq, Repr

/-- Execution context: only the block height is read by params.go. -/
structure Context where
  BlockHeight : Int

/-- The keeper code params.go calls but does not define.

* GetFixatedParamsForBlock key block: the fixation lookup, returning a record
  and a Go error.
* Deserialize raw: the value utils.Deserialize leaves in a zero-initialised
  uint64 target.
* LavaFormatError description err attributes: the error value built by
  utils.LavaFormatError.
* paramstore key: the current (raw) value of a parameter. -/
structure Keeper where
  GetFixatedParamsForBlock : ParamKey → Nat → FixatedParams × Option GoError
  Deserialize : List Nat → Nat
  LavaFormatError : String → GoError → List (String × String) → GoError
  paramstore : ParamKey → Nat

/-- Modelled from the spec: GetParamForBlock is keeper code outside params.go. The
spec gives the fixated read of a parameter as the value of
GetAsOf(key, height), decoded by the codec into the target; a failed read
yields no value, so the zero-initialised target is returned with the error. -/
def GetParamForBlock (k : Keeper) (key : ParamKey) (block : Nat) : Nat × Option GoError :=
  match k.GetFixatedParamsForBlock key block with
  | (fixation, none) => (u64 (k.Deserialize fixation.Parameter), none)
  | (_, some e) => (0, some e)

/-! ## params.go -/

/-- UnstakeHoldBlocks: the fixated read, its error dropped. -/
def UnstakeHoldBlocks (k : Keeper) (block : Nat) : Nat :=
  (GetParamForBlock k .KeyUnstakeHoldBlocks block).1

/-- UnstakeHoldBlocksRaw returns the UnstakeHoldBlocks param. -/
def UnstakeHoldBlocksRaw (k : Keeper) : Nat :=
  u64 (k.paramstore .KeyUnstakeHoldBlocks)

/-- EpochBlocks returns the EpochBlocks fixated param. -/
def EpochBlocks (k : Keeper) (block : Nat) : Nat × Option GoError :=
  GetParamForBlock k .KeyEpochBlocks block

/-- EpochBlocksRaw returns the EpochBlocks param. -/
def EpochBlocksRaw (k : Keeper) : Nat :=
  u64 (k.paramstore .KeyEpochBlocks)

/-- EpochsToSave returns the EpochsToSave fixated param. -/
def EpochsToSave (k : Keeper) (block : Nat) : Nat × Option GoError :=
  GetParamForBlock k .KeyEpochsToSave block

/-- EpochsToSaveRaw returns the EpochsToSave param. -/
def EpochsToSaveRaw (k : Keeper) : Nat :=
  u64 (k.paramstore .KeyEpochsToSave)

/-- LatestParamChange returns the LatestParamChange param. -/
def LatestParamChange (k : Keeper) : Nat :=
  u64 (k.paramstore .KeyLatestParamChange)

/-- BlockInEpoch: the record is decoded and the remainder taken before the
error of the lookup is looked at; a zero cycle is a division by zero. -/
def BlockInEpoch (k : Keeper) (block : Nat) : Except Panic (Nat × Option GoError) :=
  let (fixtedParams, err) := k.GetFixatedParamsForBlock .KeyEpochBlocks block
  let blocksCycle := u64 (k.Deserialize fixtedParams.Parameter)
  let epochStartInGrid := fixtedParams.FixationBlock
  let blockRelativeToGrid := sub64 block epochStartInGrid
  if blocksCycle = 0 then .error .divideByZero
  else .ok (blockRelativeToGrid % blocksCycle, err)

/-- IsEpochStart: on an error of BlockInEpoch the call to utils.LavaError only
logs, and false is returned. -/
def IsEpochStart (k : Keeper) (ctx : Context) : Except Panic Bool :=
  let currentBlock := (ctx.BlockHeight % (UINT64 : Int)).toNat
  match BlockInEpoch k currentBlock with
  | .error p => .error p
  | .ok (blockInEpoch, err) =>
    match err with
    | some _ => .ok false
    | none => .ok (blockInEpoch == 0)

/-- BlocksToSave: when one of the errors is nil and the other is not, the call
of Error on the nil one is a nil dereference. -/
def BlocksToSave (k : Keeper) (block : Nat) : Except Panic (Nat × Option GoError) :=
  let (epochsToSave, err) := EpochsToSave k block
  let (epochBlocks, err2) := EpochBlocks k block
  let blocksToSave := mul64 epochsToSave epochBlocks
  if err.isSome || err2.isSome then
    match err, err2 with
    | some e, some e2 =>
      .ok (blocksToSave,
        some (Errorf ("BlocksToSave param read errors " ++ e.Error ++ ", " ++ e2.Error)))
    | _, _ => .error .nilDereference
  else .ok (blocksToSave, none)

/-- GetEpochStartForBlock gets a session start. -/
def GetEpochStartForBlock (k : Keeper) (block : Nat) :
    Except Panic (Nat × Nat × Option GoError) :=
  match BlockInEpoch k block with
  | .error p => .error p
  | .ok (blockInTargetEpoch, err) =>
    let targetEpochStart := sub64 block blockInTargetEpoch
    .ok (targetEpochStart, blockInTargetEpoch, err)

/-- GetNextEpoch: start of the epoch of the block plus the fixated length. -/
def GetNextEpoch (k : Keeper) (block : Nat) : Except Panic (Nat × Option GoError) :=
  let (epochBlocks, err) := EpochBlocks k block
  match GetEpochStartForBlock k block with
  | .error p => .error p
  | .ok (epochStart, _, err2) =>
    let nextEpoch := add64 epochStart epochBlocks
    .ok (nextEpoch, match err with
      | some e => some e
      | none => err2)

/-- The error GetPreviousEpochStartForBlock builds when the epoch starts at 0. -/
def beyondZeroError (k : Keeper) : GoError :=
  k.LavaFormatError "GetPreviousEpochStartForBlock"
    (Errorf "GetPreviousEpochStartForBlock tried to fetch epoch beyond zero") []

/-- GetPreviousEpochStartForBlock: the epoch start of the block before the start
of the epoch of the given block. -/
def GetPreviousEpochStartForBlock (k : Keeper) (block : Nat) :
    Except Panic (Nat × Option GoError) :=
  match GetEpochStartForBlock k block with
  | .error p => .error p
  | .ok (epochStart, _, err) =>
    if epochStart ≤ 0 then .ok (0, some (beyondZeroError k))
    else
      match GetEpochStartForBlock k (sub64 epochStart 1) with
      | .error p => .error p
      | .ok (previousEpochStart, _, err2) =>
        .ok (previousEpochStart, match err with
          | some e => some e
          | none => err2)

/-! ## Fixation store -/

/-- Modelled from the spec: a fixation record of the store behind the keeper (the
store is outside params.go). A record carries the key of the parameter, the
opaque serialized value and the height at which the value took effect. -/
structure FixationRecord where
  key : ParamKey
  value : List Nat
  effectiveHeight : Nat
deriving DecidableEq, Repr

/-- Modelled from the spec: the store behind the keeper, outside params.go: the
log of fixation records and the parameter set of current (raw) values. -/
structure FixationStore where
  records : List FixationRecord
  current : ParamKey → Nat

/-- Modelled from the spec: the error kinds of the fixation store, which is outside
params.go: UnknownParameterKey (a key with zero fixations ever recorded, as
GetCurrent reports it) and NoFixationBeforeHeight (a point-in-time read at a
height that predates every recorded fixation). -/
inductive StoreError where
  | UnknownParameterKey
  | NoFixationBeforeHeight
deriving DecidableEq, Repr

/-- Modelled from the spec: the Go error value of a store error kind (the store
is outside params.go); the message names the kind. -/
def StoreError.toGoError : StoreError → GoError
  | .UnknownParameterKey => ⟨"UnknownParameterKey"⟩
  | .NoFixationBeforeHeight => ⟨"NoFixationBeforeHeight"⟩

/-- Modelled from the spec: the selection rule of GetAsOf, which is outside
params.go: among all records for the key, pick the one maximizing
effectiveHeight subject to effectiveHeight <= height. -/
def selectAsOf : List FixationRecord → ParamKey → Nat → Option FixationRecord
  | [], _, _ => none
  | r :: rs, key, height =>
    if r.key = key ∧ r.effectiveHeight ≤ height then
      match selectAsOf rs key height with
      | some b => if r.effectiveHeight < b.effectiveHeight then some b else some r
      | none => some r
    else selectAsOf rs key height

/-- Modelled from the spec: GetAsOf(key, height) of the fixation store, which is
outside params.go. Spec 4.1: it "returns the fixation record with the greatest
effectiveHeight that is <= height"; "if height predates every recorded
fixation, this is an error (NoFixationBeforeHeight)"; and it "must never depend
on records with effectiveHeight > height". A key without any fixation falls
under the same error: no record is at or below the height, and telling it apart
from a key whose fixations are all later would read the later records. -/
def GetAsOf (records : List FixationRecord) (key : ParamKey) (height : Nat) :
    Except StoreError FixationRecord :=
  match selectAsOf records key height with
  | some r => .ok r
  | none => .error .NoFixationBeforeHeight

/-- Modelled from the spec: GetFixatedParamsForBlock, the lookup of the keeper
that is outside params.go, is GetAsOf of the spec; a failed lookup returns the
zero record together with the error. -/
def storeLookup (s : FixationStore) (key : ParamKey) (block : Nat) :
    FixatedParams × Option GoError :=
  match GetAsOf s.records key block with
  | .ok r => (⟨r.value, r.effectiveHeight⟩, none)
  | .error e => (⟨[], 0⟩, some e.toGoError)

/-- A keeper over a fixation store, with a given codec and error formatter. -/
def storeKeeper (s : FixationStore) (codec : List Nat → Nat)
    (formatError : String → GoError → List (String × String) → GoError) : Keeper where
  GetFixatedParamsForBlock := storeLookup s
  Deserialize := codec
  LavaFormatError := formatError
  paramstore := s.current

/-- Data model invariant of the spec: no two records of a key share a height. -/
def UniqueHeights (records : List FixationRecord) : Prop :=
  ∀ r1 ∈ records, ∀ r2 ∈ records,
    r1.key = r2.key → r1.effectiveHeight = r2.effectiveHeight → r1 = r2

/-! ## Sample environments -/

/-- A codec for the samples: the bytes are a little-endian number. -/
def littleEndian (raw : List Nat) : Nat :=
  raw.foldr (fun b acc => b + 256 * acc) 0

/-- An error formatter for the samples. -/
def formatError (description : String) (err : GoError) (_ : List (String × String)) : GoError :=
  ⟨description ++ ": " ++ err.Error⟩

/-- The parameter change example of the spec: epoch length 10 effective at 0 and
epoch length 7 effective at 40 (and 5 epochs to save from 0). -/
def changeStore : FixationStore where
  records := [⟨.KeyEpochBlocks, [10], 0⟩, ⟨.KeyEpochsToSave, [5], 0⟩,
    ⟨.KeyEpochBlocks, [7], 40⟩]
  current := fun key => if key = .KeyEpochBlocks then 7 else 5

/-- The keeper over the parameter change example. -/
def changeKeeper : Keeper := storeKeeper changeStore littleEndian formatError

/-- A store whose epochs-to-save history starts later than its epoch-length
history: at height 5 the epoch-length read succeeds and the epochs-to-save read
fails. -/
def lateSaveStore : FixationStore where
  records := [⟨.KeyEpochBlocks, [10], 0⟩, ⟨.KeyEpochsToSave, [5], 20⟩]
  current := fun key => if key = .KeyEpochBlocks then 10 else 5

/-- The keeper over lateSaveStore. -/
def lateSaveKeeper : Keeper := storeKeeper lateSaveStore littleEndian formatError

/-- A store whose only epoch-length fixation takes effect at height 20. -/
def lateEpochStore : FixationStore where
  records := [⟨.KeyEpochBlocks, [10], 20⟩, ⟨.KeyEpochsToSave, [5], 20⟩]
  current := fun key => if key = .KeyEpochBlocks then 10 else 5

/-- The keeper over lateEpochStore. -/
def lateEpochKeeper : Keeper := storeKeeper lateEpochStore littleEndian formatError

/-- A store with two epoch-length changes: length 3 from height 0, length 10 from
height 20 and length 7 from height 40. -/
def threeStepStore : FixationStore where
  records := [⟨.KeyEpochBlocks, [3], 0⟩, ⟨.KeyEpochsToSave, [5], 0⟩,
    ⟨.KeyEpochBlocks, [10], 20⟩, ⟨.KeyEpochBlocks, [7], 40⟩]
  current := fun key => if key = .KeyEpochBlocks then 7 else 5

/-- The keeper over threeStepStore. -/
def threeStepKeeper : Keeper := storeKeeper threeStepStore littleEndian formatError

/-- A store in which no fixation has been recorded yet. -/
def emptyStore : FixationStore where
  records := []
  current := fun _ => 0

/-- A store that agrees with changeStore on every record effective up to height
35 and differs in the later records and in the current values. -/
def laterChangeStore : FixationStore where
  records := [⟨.KeyEpochBlocks, [10], 0⟩, ⟨.KeyEpochsToSave, [5], 0⟩,
    ⟨.KeyEpochsToSave, [2], 37⟩, ⟨.KeyEpochBlocks, [9], 38⟩]
  current := fun key => if key = .KeyEpochBlocks then 9 else 2

/-- The boundary example of the spec: a single epoch-length fixation of value 10
effective at height 0. -/
def boundaryStore : FixationStore where
  records := [⟨.KeyEpochBlocks, [10], 0⟩]
  current := fun _ => 10

/-- The keeper over boundaryStore. -/
def boundaryKeeper : Keeper := storeKeeper boundaryStore littleEndian formatError

/-- A store whose unstake-hold-blocks history starts at height 20 with value 210. -/
def lateUnstakeStore : FixationStore where
  records := [⟨.KeyEpochBlocks, [10], 0⟩, ⟨.KeyUnstakeHoldBlocks, [210], 20⟩]
  current := fun key => if key = .KeyEpochBlocks then 10 else 210

/-- The keeper over lateUnstakeStore. -/
def lateUnstakeKeeper : Keeper := storeKeeper lateUnstakeStore littleEndian formatError

/-- A store whose unstake-hold-blocks parameter is fixated to 0 from height 0. -/
def zeroUnstakeStore : FixationStore where
  records := [⟨.KeyEpochBlocks, [10], 0⟩, ⟨.KeyUnstakeHoldBlocks, [0], 0⟩]
  current := fun key => if key = .KeyEpochBlocks then 10 else 0

/-- The keeper over zeroUnstakeStore. -/
def zeroUnstakeKeeper : Keeper := storeKeeper zeroUnstakeStore littleEndian formatError

/-- A store whose epoch length is 2^63 from height 0. -/
def hugeEpochStore : FixationStore where
  records := [⟨.KeyEpochBlocks, [0, 0, 0, 0, 0, 0, 0, 128], 0⟩]
  current := fun _ => 9223372036854775808

/-- The keeper over hugeEpochStore. -/
def hugeEpochKeeper : Keeper := storeKeeper hugeEpochStore littleEndian formatError

/-! ## Theorems -/

theorem sub64_of_le {a b : Nat} (ha : a < UINT64) (hb : b ≤ a) : sub64 a b = a - b := by
  unfold sub64 UINT64 at *
  omega

/-- Value of BlockInEpoch on a successful lookup with a positive cycle. -/
theorem BlockInEpoch_eq (k : Keeper) (block L : Nat) (r : FixatedParams)
    (hb : block < UINT64)
    (hl : k.GetFixatedParamsForBlock .KeyEpochBlocks block = (r, none))
    (hL : u64 (k.Deserialize r.Parameter) = L) (hpos : 0 < L)
    (hfix : r.FixationBlock ≤ block) :
    BlockInEpoch k block = .ok ((block - r.FixationBlock) % L, none) := by
  have hne : L ≠ 0 := Nat.pos_iff_ne_zero.mp hpos
  simp [BlockInEpoch, hl, hL, hne, sub64_of_le hb hfix]

theorem add64_of_lt {a b : Nat} (h : a + b < UINT64) : add64 a b = a + b := by
  unfold add64
  exact Nat.mod_eq_of_lt h

theorem sub64_lt (a b : Nat) : sub64 a b < UINT64 := by
  unfold sub64
  exact Nat.mod_lt _ (by unfold UINT64; omega)

/-- Value of the fixated read on a successful lookup. -/
theorem GetParamForBlock_eq (k : Keeper) (key : ParamKey) (block : Nat) (r : FixatedParams)
    (hl : k.GetFixatedParamsForBlock key block = (r, none)) :
    GetParamForBlock k key block = (u64 (k.Deserialize r.Parameter), none) := by
  simp [GetParamForBlock, hl]

/-- Value of GetEpochStartForBlock on a successful lookup with a positive cycle. -/
theorem GetEpochStartForBlock_eq (k : Keeper) (block L : Nat) (r : FixatedParams)
    (hb : block < UINT64)
    (hl : k.GetFixatedParamsForBlock .KeyEpochBlocks block = (r, none))
    (hL : u64 (k.Deserialize r.Parameter) = L) (hpos : 0 < L)
    (hfix : r.FixationBlock ≤ block) :
    GetEpochStartForBlock k block
      = .ok (block - (block - r.FixationBlock) % L, (block - r.FixationBlock) % L, none) := by
  have hoff : (block - r.FixationBlock) % L ≤ block :=
    le_trans (Nat.mod_le _ _) (Nat.sub_le _ _)
  simp [GetEpochStartForBlock, BlockInEpoch_eq k block L r hb hl hL hpos hfix,
    sub64_of_le hb hoff]

/-- C1: for a height whose epoch-length lookup succeeds with a record of decoded
length L > 0 and fixation block <= the height, BlockInEpoch returns exactly
(height - fixation block) mod L and the nil error. -/
theorem BlockInEpoch_offset (k : Keeper) (block L : Nat) (r : FixatedParams)
    (hb : block < UINT64)
    (hl : k.GetFixatedParamsForBlock .KeyEpochBlocks block = (r, none))
    (hL : u64 (k.Deserialize r.Parameter) = L) (hpos : 0 < L)
    (hfix : r.FixationBlock ≤ block) :
    BlockInEpoch k block = .ok ((block - r.FixationBlock) % L, none) :=
  BlockInEpoch_eq k block L r hb hl hL hpos hfix

theorem BlockInEpoch_offset_witness :
    BlockInEpoch changeKeeper 44 = .ok ((44 - 40) % 7, none) :=
  BlockInEpoch_offset changeKeeper 44 7 ⟨[7], 40⟩ (by decide) (by decide) (by decide)
    (by decide) (by decide)

/-- C2: epoch containment. For a height H whose epoch-length lookup succeeds with
decoded length L > 0 and fixation block <= H, GetEpochStartForBlock returns a
start and an offset with start <= H < start + L, offset = H - start and
offset < L; and when start + L is below 2^64, GetNextEpoch returns start + L,
which is strictly greater than H. -/
theorem epoch_containment (k : Keeper) (H L : Nat) (r : FixatedParams)
    (hH : H < UINT64)
    (hl : k.GetFixatedParamsForBlock .KeyEpochBlocks H = (r, none))
    (hL : u64 (k.Deserialize r.Parameter) = L) (hpos : 0 < L)
    (hfix : r.FixationBlock ≤ H) :
    ∃ start offset : Nat,
      GetEpochStartForBlock k H = .ok (start, offset, none) ∧
      start ≤ H ∧ H < start + L ∧ offset = H - start ∧ offset < L ∧
      (start + L < UINT64 →
        GetNextEpoch k H = .ok (start + L, none) ∧ H < start + L) := by
  have hoff : (H - r.FixationBlock) % L < L := Nat.mod_lt _ hpos
  have hle : (H - r.FixationBlock) % L ≤ H := le_trans (Nat.mod_le _ _) (Nat.sub_le _ _)
  refine ⟨H - (H - r.FixationBlock) % L, (H - r.FixationBlock) % L,
    GetEpochStartForBlock_eq k H L r hH hl hL hpos hfix, Nat.sub_le _ _, by omega, by omega,
    hoff, ?_⟩
  intro hsum
  refine ⟨?_, by omega⟩
  simp [GetNextEpoch, EpochBlocks, GetParamForBlock_eq k _ H r hl, hL,
    GetEpochStartForBlock_eq k H L r hH hl hL hpos hfix, add64_of_lt hsum]

theorem epoch_containment_witness :
    ∃ start offset : Nat,
      GetEpochStartForBlock changeKeeper 35 = .ok (start, offset, none) ∧
      start ≤ 35 ∧ 35 < start + 10 ∧ offset = 35 - start ∧ offset < 10 ∧
      (start + 10 < UINT64 →
        GetNextEpoch changeKeeper 35 = .ok (start + 10, none) ∧ 35 < start + 10) :=
  epoch_containment changeKeeper 35 10 ⟨[10], 0⟩ (by decide) (by decide) (by decide)
    (by decide) (by decide)

/-- What a returning GetEpochStartForBlock says about BlockInEpoch. -/
theorem GetEpochStartForBlock_ok (k : Keeper) (block start offset : Nat) (err : Option GoError)
    (hs : GetEpochStartForBlock k block = .ok (start, offset, err)) :
    BlockInEpoch k block = .ok (offset, err) ∧ start = sub64 block offset := by
  unfold GetEpochStartForBlock at hs
  split at hs
  · exact absurd hs (by simp)
  · rename_i b e hb
    simp only [Except.ok.injEq, Prod.mk.injEq] at hs
    obtain ⟨h1, h2, h3⟩ := hs
    subst h2 h3
    exact ⟨hb, h1.symm⟩

/-- GetPreviousEpochStartForBlock when the epoch of the block starts at 0. -/
theorem GetPreviousEpochStartForBlock_zero (k : Keeper) (block offset : Nat)
    (err : Option GoError)
    (hs : GetEpochStartForBlock k block = .ok (0, offset, err)) :
    GetPreviousEpochStartForBlock k block = .ok (0, some (beyondZeroError k)) := by
  simp [GetPreviousEpochStartForBlock, hs]

/-- GetPreviousEpochStartForBlock when the epoch of the block starts above 0. -/
theorem GetPreviousEpochStartForBlock_pos (k : Keeper) (block start offset p o : Nat)
    (err2 : Option GoError)
    (hs : GetEpochStartForBlock k block = .ok (start, offset, none))
    (hpos : 0 < start)
    (hp : GetEpochStartForBlock k (start - 1) = .ok (p, o, err2)) :
    GetPreviousEpochStartForBlock k block = .ok (p, err2) := by
  have hlt : start < UINT64 := by
    rw [(GetEpochStartForBlock_ok k block start offset none hs).2]
    exact sub64_lt _ _
  have h1 : sub64 start 1 = start - 1 := sub64_of_le hlt hpos
  have hne : ¬ start = 0 := Nat.pos_iff_ne_zero.mp hpos
  simp [GetPreviousEpochStartForBlock, hs, hne, h1, hp]

/-- C5: for a height at which GetEpochStartForBlock returns a start without error,
GetPreviousEpochStartForBlock returns previous start 0 and the beyond-zero
error if start = 0, and returns the nil error if start > 0 and the lookup at
start - 1 succeeds as well. -/
theorem GetPreviousEpochStartForBlock_error_at_genesis (k : Keeper)
    (height start offset : Nat)
    (hs : GetEpochStartForBlock k height = .ok (start, offset, none)) :
    (start = 0 →
      GetPreviousEpochStartForBlock k height = .ok (0, some (beyondZeroError k))) ∧
    (0 < start →
      ∀ p o : Nat, GetEpochStartForBlock k (start - 1) = .ok (p, o, none) →
        ∃ previous : Nat, GetPreviousEpochStartForBlock k height = .ok (previous, none)) := by
  constructor
  · intro h0
    subst h0
    exact GetPreviousEpochStartForBlock_zero k height offset none hs
  · intro hpos p o hp
    exact ⟨p, GetPreviousEpochStartForBlock_pos k height start offset p o none hs hpos hp⟩

theorem GetPreviousEpochStartForBlock_error_at_genesis_witness :
    GetPreviousEpochStartForBlock changeKeeper 5
      = .ok (0, some (beyondZeroError changeKeeper)) ∧
    ∃ previous : Nat, GetPreviousEpochStartForBlock changeKeeper 44 = .ok (previous, none) :=
  ⟨(GetPreviousEpochStartForBlock_error_at_genesis changeKeeper 5 0 5 (by decide)).1 rfl,
   (GetPreviousEpochStartForBlock_error_at_genesis changeKeeper 44 40 4 (by decide)).2
     (by decide) 30 9 (by decide)⟩

/-- C6: for a height whose epoch start is > 0 and whose lookups succeed,
GetPreviousEpochStartForBlock returns the start that GetEpochStartForBlock
returns at start - 1; that value comes from the fixation record looked up at
start - 1 (its length and its fixation block), not from the record of the
height itself. -/
theorem GetPreviousEpochStartForBlock_second_lookup (k : Keeper)
    (height start offset p o : Nat)
    (hs : GetEpochStartForBlock k height = .ok (start, offset, none))
    (hpos : 0 < start)
    (hp : GetEpochStartForBlock k (start - 1) = .ok (p, o, none)) :
    GetPreviousEpochStartForBlock k height = .ok (p, none) ∧
    ∀ (r2 : FixatedParams) (L2 : Nat),
      k.GetFixatedParamsForBlock .KeyEpochBlocks (start - 1) = (r2, none) →
      u64 (k.Deserialize r2.Parameter) = L2 → 0 < L2 → r2.FixationBlock ≤ start - 1 →
      p = (start - 1) - ((start - 1) - r2.FixationBlock) % L2 := by
  refine ⟨GetPreviousEpochStartForBlock_pos k height start offset p o none hs hpos hp, ?_⟩
  intro r2 L2 hl hL hL0 hfix
  have hlt : start < UINT64 := by
    rw [(GetEpochStartForBlock_ok k height start offset none hs).2]
    exact sub64_lt _ _
  have h := GetEpochStartForBlock_eq k (start - 1) L2 r2 (by omega) hl hL hL0 hfix
  rw [hp] at h
  simp only [Except.ok.injEq, Prod.mk.injEq] at h
  exact h.1

theorem GetPreviousEpochStartForBlock_second_lookup_witness :
    GetPreviousEpochStartForBlock changeKeeper 44 = .ok (30, none) ∧
    ∀ (r2 : FixatedParams) (L2 : Nat),
      changeKeeper.GetFixatedParamsForBlock .KeyEpochBlocks (40 - 1) = (r2, none) →
      u64 (changeKeeper.Deserialize r2.Parameter) = L2 → 0 < L2 →
      r2.FixationBlock ≤ 40 - 1 →
      30 = (40 - 1) - ((40 - 1) - r2.FixationBlock) % L2 :=
  GetPreviousEpochStartForBlock_second_lookup changeKeeper 44 40 4 30 9 (by decide)
    (by decide) (by decide)

/-- C7: for a height whose lookups succeed, GetNextEpoch returns start + length
modulo 2^64 without error, where start is the start returned by
GetEpochStartForBlock and length is the value of EpochBlocks at that height; the
sum is exact whenever it is below 2^64. -/
theorem GetNextEpoch_start_plus_length (k : Keeper) (height start offset length : Nat)
    (hs : GetEpochStartForBlock k height = .ok (start, offset, none))
    (hlen : EpochBlocks k height = (length, none)) :
    GetNextEpoch k height = .ok ((start + length) % UINT64, none) ∧
    (start + length < UINT64 → GetNextEpoch k height = .ok (start + length, none)) := by
  have h : GetNextEpoch k height = .ok ((start + length) % UINT64, none) := by
    simp [GetNextEpoch, hs, hlen, add64]
  refine ⟨h, fun hlt => ?_⟩
  rw [h, Nat.mod_eq_of_lt hlt]

theorem GetNextEpoch_start_plus_length_witness :
    GetNextEpoch changeKeeper 44 = .ok ((40 + 7) % UINT64, none) ∧
    (40 + 7 < UINT64 → GetNextEpoch changeKeeper 44 = .ok (40 + 7, none)) :=
  GetNextEpoch_start_plus_length changeKeeper 44 40 4 7 (by decide) (by decide)

/-- C8: at height 5 of lateSaveStore the epochs-to-save read fails and the
epoch-length read succeeds; BlocksToSave then stops with a nil dereference
instead of returning an error. -/
theorem BlocksToSave_one_read_fails :
    EpochsToSave lateSaveKeeper 5 = (0, some ⟨"NoFixationBeforeHeight"⟩) ∧
    EpochBlocks lateSaveKeeper 5 = (10, none) ∧
    BlocksToSave lateSaveKeeper 5 = .error .nilDereference := by
  decide

/-- C9: for a height at which both fixated reads succeed, BlocksToSave returns
the nil error and the product of the two values read at that height modulo
2^64, which is the exact product whenever that is below 2^64. -/
theorem BlocksToSave_product (k : Keeper) (height epochsToSave epochBlocks : Nat)
    (h1 : EpochsToSave k height = (epochsToSave, none))
    (h2 : EpochBlocks k height = (epochBlocks, none)) :
    BlocksToSave k height = .ok ((epochsToSave * epochBlocks) % UINT64, none) ∧
    (epochsToSave * epochBlocks < UINT64 →
      BlocksToSave k height = .ok (epochsToSave * epochBlocks, none)) := by
  have h : BlocksToSave k height = .ok ((epochsToSave * epochBlocks) % UINT64, none) := by
    simp [BlocksToSave, h1, h2, mul64]
  refine ⟨h, fun hlt => ?_⟩
  rw [h, Nat.mod_eq_of_lt hlt]

theorem BlocksToSave_product_witness :
    BlocksToSave changeKeeper 44 = .ok ((5 * 7) % UINT64, none) ∧
    (5 * 7 < UINT64 → BlocksToSave changeKeeper 44 = .ok (5 * 7, none)) :=
  BlocksToSave_product changeKeeper 44 5 7 (by decide) (by decide)

/-- C10: at height 5 of lateEpochStore the epoch-length read fails with the zero
record, whose decoded length is 0; IsEpochStart then stops with a division by
zero instead of returning false. -/
theorem IsEpochStart_failed_read_zero_length :
    lateEpochKeeper.GetFixatedParamsForBlock .KeyEpochBlocks 5
      = (⟨[], 0⟩, some ⟨"NoFixationBeforeHeight"⟩) ∧
    u64 (lateEpochKeeper.Deserialize []) = 0 ∧
    IsEpochStart lateEpochKeeper ⟨5⟩ = .error .divideByZero := by
  decide

/-! ### The selection rule of the store -/

/-- A selected record is a record of the store for the key, not above the height. -/
theorem selectAsOf_mem (rs : List FixationRecord) (key : ParamKey) (height : Nat)
    (b : FixationRecord) (h : selectAsOf rs key height = some b) :
    b ∈ rs ∧ b.key = key ∧ b.effectiveHeight ≤ height := by
  induction rs generalizing b with
  | nil => simp [selectAsOf] at h
  | cons r rs ih =>
    unfold selectAsOf at h
    split_ifs at h with hq
    · cases hsel : selectAsOf rs key height with
      | none =>
        rw [hsel] at h
        simp only [Option.some.injEq] at h
        subst h
        exact ⟨List.mem_cons_self _ _, hq.1, hq.2⟩
      | some c =>
        rw [hsel] at h
        simp only at h
        split_ifs at h with hlt
        · simp only [Option.some.injEq] at h
          subst h
          obtain ⟨hm, hk, hh⟩ := ih c hsel
          exact ⟨List.mem_cons_of_mem _ hm, hk, hh⟩
        · simp only [Option.some.injEq] at h
          subst h
          exact ⟨List.mem_cons_self _ _, hq.1, hq.2⟩
    · obtain ⟨hm, hk, hh⟩ := ih b h
      exact ⟨List.mem_cons_of_mem _ hm, hk, hh⟩

/-- A selected record has the greatest height among the records it was chosen from. -/
theorem selectAsOf_max (rs : List FixationRecord) (key : ParamKey) (height : Nat)
    (b : FixationRecord) (h : selectAsOf rs key height = some b) :
    ∀ r ∈ rs, r.key = key → r.effectiveHeight ≤ height →
      r.effectiveHeight ≤ b.effectiveHeight := by
  induction rs generalizing b with
  | nil => simp
  | cons r rs ih =>
    intro x hx hxk hxh
    unfold selectAsOf at h
    split_ifs at h with hq
    · cases hsel : selectAsOf rs key height with
      | none =>
        rw [hsel] at h
        simp only [Option.some.injEq] at h
        subst h
        rcases List.mem_cons.mp hx with hx | hx
        · rw [hx]
        · exfalso
          have hnone : ∀ (l : List FixationRecord), selectAsOf l key height = none →
              ∀ y ∈ l, ¬ (y.key = key ∧ y.effectiveHeight ≤ height) := by
            intro l
            induction l with
            | nil => simp
            | cons y l ihl =>
              intro hl z hz
              unfold selectAsOf at hl
              split_ifs at hl with hy
              · cases hsl : selectAsOf l key height with
                | none => rw [hsl] at hl; simp at hl
                | some c =>
                  rw [hsl] at hl
                  simp only at hl
                  split_ifs at hl
              · rcases List.mem_cons.mp hz with hz | hz
                · rw [hz]; exact hy
                · exact ihl hl z hz
          exact hnone rs hsel x hx ⟨hxk, hxh⟩
      | some c =>
        rw [hsel] at h
        simp only at h
        have hc := ih c hsel
        split_ifs at h with hlt
        · simp only [Option.some.injEq] at h
          subst h
          rcases List.mem_cons.mp hx with hx | hx
          · rw [hx]; exact Nat.le_of_lt hlt
          · exact hc x hx hxk hxh
        · simp only [Option.some.injEq] at h
          subst h
          rcases List.mem_cons.mp hx with hx | hx
          · rw [hx]
          · exact le_trans (hc x hx hxk hxh) (Nat.le_of_not_lt hlt)
    · rcases List.mem_cons.mp hx with hx | hx
      · rw [hx] at hxk hxh
        exact absurd ⟨hxk, hxh⟩ hq
      · exact ih b h x hx hxk hxh

/-- When some record qualifies, a record is selected. -/
theorem selectAsOf_isSome (rs : List FixationRecord) (key : ParamKey) (height : Nat)
    (r : FixationRecord) (hr : r ∈ rs) (hk : r.key = key) (hh : r.effectiveHeight ≤ height) :
    ∃ b, selectAsOf rs key height = some b := by
  induction rs with
  | nil => simp at hr
  | cons x rs ih =>
    unfold selectAsOf
    split_ifs with hq
    · cases hsel : selectAsOf rs key height with
      | none => exact ⟨x, rfl⟩
      | some c =>
        simp only
        split_ifs
        · exact ⟨c, rfl⟩
        · exact ⟨x, rfl⟩
    · rcases List.mem_cons.mp hr with hx | hx
      · rw [hx] at hk hh
        exact absurd ⟨hk, hh⟩ hq
      · exact ih hx

/-- Under the uniqueness invariant the selection is the qualifying record of
greatest height. -/
theorem selectAsOf_eq (rs : List FixationRecord) (key : ParamKey) (height : Nat)
    (r : FixationRecord) (hu : UniqueHeights rs)
    (hr : r ∈ rs) (hk : r.key = key) (hh : r.effectiveHeight ≤ height)
    (hmax : ∀ x ∈ rs, x.key = key → x.effectiveHeight ≤ height →
      x.effectiveHeight ≤ r.effectiveHeight) :
    selectAsOf rs key height = some r := by
  obtain ⟨b, hb⟩ := selectAsOf_isSome rs key height r hr hk hh
  obtain ⟨hbm, hbk, hbh⟩ := selectAsOf_mem rs key height b hb
  have h1 := selectAsOf_max rs key height b hb r hr hk hh
  have h2 := hmax b hbm hbk hbh
  have : b = r := hu b hbm r hr (hbk.trans hk.symm) (le_antisymm h2 h1)
  rw [hb, this]

/-- GetAsOf returns the qualifying record of greatest height. -/
theorem GetAsOf_eq (rs : List FixationRecord) (key : ParamKey) (height : Nat)
    (r : FixationRecord) (hu : UniqueHeights rs)
    (hr : r ∈ rs) (hk : r.key = key) (hh : r.effectiveHeight ≤ height)
    (hmax : ∀ x ∈ rs, x.key = key → x.effectiveHeight ≤ height →
      x.effectiveHeight ≤ r.effectiveHeight) :
    GetAsOf rs key height = .ok r := by
  unfold GetAsOf
  rw [selectAsOf_eq rs key height r hu hr hk hh hmax]

/-- The lookup of a store keeper on the qualifying record of greatest height. -/
theorem storeLookup_eq (s : FixationStore) (key : ParamKey) (height : Nat)
    (r : FixationRecord) (hu : UniqueHeights s.records)
    (hr : r ∈ s.records) (hk : r.key = key) (hh : r.effectiveHeight ≤ height)
    (hmax : ∀ x ∈ s.records, x.key = key → x.effectiveHeight ≤ height →
      x.effectiveHeight ≤ r.effectiveHeight) :
    storeLookup s key height = (⟨r.value, r.effectiveHeight⟩, none) := by
  simp [storeLookup, GetAsOf_eq s.records key height r hu hr hk hh hmax]

/-- C4 (amended): grid re-anchoring. Let the store hold an epoch-length fixation
of decoded length L1 > 0 effective at F0 and one of decoded length L2 > 0
effective at F > F0, with no epoch-length fixation strictly between F0 and F
and none after F. Then BlockInEpoch(H2) = (H2 - F) mod L2 for every H2 >= F,
and BlockInEpoch(H1) = (H1 - F0) mod L1 for every H1 with F0 <= H1 < F. -/
theorem grid_reanchoring (s : FixationStore) (codec : List Nat → Nat)
    (fe : String → GoError → List (String × String) → GoError)
    (L1 L2 F0 F : Nat) (v1 v2 : List Nat)
    (hu : UniqueHeights s.records)
    (h1 : (⟨.KeyEpochBlocks, v1, F0⟩ : FixationRecord) ∈ s.records)
    (h2 : (⟨.KeyEpochBlocks, v2, F⟩ : FixationRecord) ∈ s.records)
    (hL1 : u64 (codec v1) = L1) (hL2 : u64 (codec v2) = L2)
    (hp1 : 0 < L1) (hp2 : 0 < L2)
    (hprec : ∀ r ∈ s.records, r.key = .KeyEpochBlocks → r.effectiveHeight < F →
      r.effectiveHeight ≤ F0)
    (hlast : ∀ r ∈ s.records, r.key = .KeyEpochBlocks → r.effectiveHeight ≤ F) :
    (∀ H2 : Nat, F ≤ H2 → H2 < UINT64 →
      BlockInEpoch (storeKeeper s codec fe) H2 = .ok ((H2 - F) % L2, none)) ∧
    (∀ H1 : Nat, F0 ≤ H1 → H1 < F → H1 < UINT64 →
      BlockInEpoch (storeKeeper s codec fe) H1 = .ok ((H1 - F0) % L1, none)) := by
  constructor
  · intro H2 hge hlt
    have hl : (storeKeeper s codec fe).GetFixatedParamsForBlock .KeyEpochBlocks H2
        = (⟨v2, F⟩, none) :=
      storeLookup_eq s .KeyEpochBlocks H2 ⟨.KeyEpochBlocks, v2, F⟩ hu h2 rfl hge
        (fun x hx hxk _ => hlast x hx hxk)
    exact BlockInEpoch_eq (storeKeeper s codec fe) H2 L2 ⟨v2, F⟩ hlt hl hL2 hp2 hge
  · intro H1 hge hltF hlt
    have hl : (storeKeeper s codec fe).GetFixatedParamsForBlock .KeyEpochBlocks H1
        = (⟨v1, F0⟩, none) :=
      storeLookup_eq s .KeyEpochBlocks H1 ⟨.KeyEpochBlocks, v1, F0⟩ hu h1 rfl hge
        (fun x hx hxk hxh => hprec x hx hxk (lt_of_le_of_lt hxh hltF))
    exact BlockInEpoch_eq (storeKeeper s codec fe) H1 L1 ⟨v1, F0⟩ hlt hl hL1 hp1 hge

theorem grid_reanchoring_witness :
    BlockInEpoch changeKeeper 44 = .ok (4, none) ∧
    GetEpochStartForBlock changeKeeper 44 = .ok (40, 4, none) ∧
    BlockInEpoch changeKeeper 35 = .ok (5, none) ∧
    GetEpochStartForBlock changeKeeper 35 = .ok (30, 5, none) :=
  have h := grid_reanchoring changeStore littleEndian formatError 10 7 0 40 [10] [7]
    (by unfold UniqueHeights; decide) (by decide) (by decide) (by decide) (by decide)
    (by decide) (by decide) (by decide) (by decide)
  ⟨h.1 44 (by decide) (by decide), by decide, h.2 35 (by decide) (by decide) (by decide),
    by decide⟩

/-- C4 as stated fails: in threeStepStore the length changes from 10 to 7 at height
40, the preceding fixation is the one at 20 and none is later, yet at height
13 < 40 BlockInEpoch is 13 mod 3 = 1 (the fixation at 0 is in effect), which is
not (13 - 20) mod 10 under any reading of the subtraction. -/
theorem reanchoring_fails_below_preceding_fixation :
    (⟨.KeyEpochBlocks, [10], 20⟩ : FixationRecord) ∈ threeStepStore.records ∧
    (⟨.KeyEpochBlocks, [7], 40⟩ : FixationRecord) ∈ threeStepStore.records ∧
    (∀ r ∈ threeStepStore.records, r.key = .KeyEpochBlocks → r.effectiveHeight < 40 →
      r.effectiveHeight ≤ 20) ∧
    (∀ r ∈ threeStepStore.records, r.key = .KeyEpochBlocks → r.effectiveHeight ≤ 40) ∧
    BlockInEpoch threeStepKeeper 13 = .ok (1, none) ∧
    (1 : Int) ≠ ((13 : Int) - 20) % 10 ∧ 1 ≠ sub64 13 20 % 10 ∧ 1 ≠ (13 - 20) % 10 := by
  decide

/-! ### Independence of later fixations -/

/-- The record a store lookup returns is never fixated above the queried block. -/
theorem storeLookup_fix_le (s : FixationStore) (key : ParamKey) (block : Nat) :
    (storeLookup s key block).1.FixationBlock ≤ block := by
  unfold storeLookup
  cases h : GetAsOf s.records key block with
  | error e => simp
  | ok r =>
    simp only
    unfold GetAsOf at h
    cases hsel : selectAsOf s.records key block with
    | none => rw [hsel] at h; simp at h
    | some b =>
      rw [hsel] at h
      simp only [Except.ok.injEq] at h
      subst h
      exact (selectAsOf_mem s.records key block b hsel).2.2

/-- Two logs with the same records up to H select the same record at heights <= H. -/
theorem selectAsOf_congr (rs1 rs2 : List FixationRecord) (key : ParamKey) (H h : Nat)
    (hu2 : UniqueHeights rs2)
    (hsame : ∀ r : FixationRecord, r.effectiveHeight ≤ H → (r ∈ rs1 ↔ r ∈ rs2))
    (hh : h ≤ H) :
    selectAsOf rs1 key h = selectAsOf rs2 key h := by
  cases h1 : selectAsOf rs1 key h with
  | none =>
    cases h2 : selectAsOf rs2 key h with
    | none => rfl
    | some b2 =>
      obtain ⟨hm, hk, hb⟩ := selectAsOf_mem rs2 key h b2 h2
      have hm1 : b2 ∈ rs1 := (hsame b2 (le_trans hb hh)).mpr hm
      obtain ⟨c, hc⟩ := selectAsOf_isSome rs1 key h b2 hm1 hk hb
      rw [h1] at hc
      exact absurd hc (by simp)
  | some b1 =>
    obtain ⟨hm, hk, hb⟩ := selectAsOf_mem rs1 key h b1 h1
    have hm2 : b1 ∈ rs2 := (hsame b1 (le_trans hb hh)).mp hm
    have hmax : ∀ x ∈ rs2, x.key = key → x.effectiveHeight ≤ h →
        x.effectiveHeight ≤ b1.effectiveHeight := by
      intro x hx hxk hxh
      exact selectAsOf_max rs1 key h b1 h1 x ((hsame x (le_trans hxh hh)).mpr hx) hxk hxh
    exact (selectAsOf_eq rs2 key h b1 hu2 hm2 hk hb hmax).symm

/-- Two stores with the same records up to H answer every lookup at a height <= H
alike. -/
theorem storeLookup_congr (s1 s2 : FixationStore) (H : Nat)
    (hu2 : UniqueHeights s2.records)
    (hsame : ∀ r : FixationRecord, r.effectiveHeight ≤ H →
      (r ∈ s1.records ↔ r ∈ s2.records))
    (key : ParamKey) (h : Nat) (hh : h ≤ H) :
    storeLookup s1 key h = storeLookup s2 key h := by
  unfold storeLookup GetAsOf
  rw [selectAsOf_congr s1.records s2.records key H h hu2 hsame hh]

/-- The offset BlockInEpoch returns is at most the block when the record is not
fixated above the block. -/
theorem BlockInEpoch_le (k : Keeper) (block offset : Nat) (err : Option GoError)
    (hb : block < UINT64)
    (hfix : (k.GetFixatedParamsForBlock .KeyEpochBlocks block).1.FixationBlock ≤ block)
    (h : BlockInEpoch k block = .ok (offset, err)) : offset ≤ block := by
  unfold BlockInEpoch at h
  simp only at h
  split_ifs at h
  simp only [Except.ok.injEq, Prod.mk.injEq] at h
  rw [← h.1, sub64_of_le hb hfix]
  exact le_trans (Nat.mod_le _ _) (Nat.sub_le _ _)

/-- Keepers that share codec and formatter and whose lookups agree up to H
compute the same BlockInEpoch at heights <= H. -/
theorem BlockInEpoch_congr (k1 k2 : Keeper) (H : Nat)
    (hd : k1.Deserialize = k2.Deserialize)
    (hlook : ∀ key h, h ≤ H →
      k1.GetFixatedParamsForBlock key h = k2.GetFixatedParamsForBlock key h)
    (h : Nat) (hh : h ≤ H) : BlockInEpoch k1 h = BlockInEpoch k2 h := by
  unfold BlockInEpoch
  rw [hlook _ h hh, hd]

theorem GetEpochStartForBlock_congr (k1 k2 : Keeper) (H : Nat)
    (hd : k1.Deserialize = k2.Deserialize)
    (hlook : ∀ key h, h ≤ H →
      k1.GetFixatedParamsForBlock key h = k2.GetFixatedParamsForBlock key h)
    (h : Nat) (hh : h ≤ H) : GetEpochStartForBlock k1 h = GetEpochStartForBlock k2 h := by
  unfold GetEpochStartForBlock
  rw [BlockInEpoch_congr k1 k2 H hd hlook h hh]

theorem GetParamForBlock_congr (k1 k2 : Keeper) (H : Nat)
    (hd : k1.Deserialize = k2.Deserialize)
    (hlook : ∀ key h, h ≤ H →
      k1.GetFixatedParamsForBlock key h = k2.GetFixatedParamsForBlock key h)
    (key : ParamKey) (h : Nat) (hh : h ≤ H) :
    GetParamForBlock k1 key h = GetParamForBlock k2 key h := by
  unfold GetParamForBlock
  rw [hlook key h hh, hd]

theorem GetNextEpoch_congr (k1 k2 : Keeper) (H : Nat)
    (hd : k1.Deserialize = k2.Deserialize)
    (hlook : ∀ key h, h ≤ H →
      k1.GetFixatedParamsForBlock key h = k2.GetFixatedParamsForBlock key h)
    (h : Nat) (hh : h ≤ H) : GetNextEpoch k1 h = GetNextEpoch k2 h := by
  unfold GetNextEpoch EpochBlocks
  rw [GetParamForBlock_congr k1 k2 H hd hlook _ h hh,
    GetEpochStartForBlock_congr k1 k2 H hd hlook h hh]

theorem BlocksToSave_congr (k1 k2 : Keeper) (H : Nat)
    (hd : k1.Deserialize = k2.Deserialize)
    (hlook : ∀ key h, h ≤ H →
      k1.GetFixatedParamsForBlock key h = k2.GetFixatedParamsForBlock key h)
    (h : Nat) (hh : h ≤ H) : BlocksToSave k1 h = BlocksToSave k2 h := by
  unfold BlocksToSave EpochBlocks EpochsToSave
  rw [GetParamForBlock_congr k1 k2 H hd hlook _ h hh,
    GetParamForBlock_congr k1 k2 H hd hlook _ h hh]

theorem GetPreviousEpochStartForBlock_congr (k1 k2 : Keeper) (H : Nat)
    (hH : H < UINT64)
    (hd : k1.Deserialize = k2.Deserialize)
    (hf : k1.LavaFormatError = k2.LavaFormatError)
    (hlook : ∀ key h, h ≤ H →
      k1.GetFixatedParamsForBlock key h = k2.GetFixatedParamsForBlock key h)
    (hfix : (k2.GetFixatedParamsForBlock .KeyEpochBlocks H).1.FixationBlock ≤ H) :
    GetPreviousEpochStartForBlock k1 H = GetPreviousEpochStartForBlock k2 H := by
  unfold GetPreviousEpochStartForBlock
  rw [GetEpochStartForBlock_congr k1 k2 H hd hlook H le_rfl]
  cases hs : GetEpochStartForBlock k2 H with
  | error p => rfl
  | ok v =>
    obtain ⟨start, offset, err⟩ := v
    simp only
    have hbz : beyondZeroError k1 = beyondZeroError k2 := by
      unfold beyondZeroError
      rw [hf]
    rw [hbz]
    split_ifs with h0
    · rfl
    · obtain ⟨hbie, hstart⟩ := GetEpochStartForBlock_ok k2 H start offset err hs
      have hoff : offset ≤ H := BlockInEpoch_le k2 H offset err hH hfix hbie
      have hsH : start ≤ H := by
        rw [hstart, sub64_of_le hH hoff]
        exact Nat.sub_le _ _
      have hprev : sub64 start 1 ≤ H := by
        rw [sub64_of_le (lt_of_le_of_lt hsH hH) (by omega)]
        omega
      rw [GetEpochStartForBlock_congr k1 k2 H hd hlook _ hprev]

/-- C3: no dependence on later fixations. Let two stores (fixation logs with
unique heights per key, the data model invariant) contain the same fixation
records with effectiveHeight <= H; they may differ arbitrarily in the records
with effectiveHeight > H and in the current values. Then BlockInEpoch,
GetEpochStartForBlock, GetNextEpoch, GetPreviousEpochStartForBlock and
BlocksToSave return identical results at H on both stores. -/
theorem results_ignore_later_fixations (s1 s2 : FixationStore) (codec : List Nat → Nat)
    (fe : String → GoError → List (String × String) → GoError) (H : Nat)
    (hH : H < UINT64)
    (hu : UniqueHeights s2.records)
    (hsame : ∀ r : FixationRecord, r.effectiveHeight ≤ H →
      (r ∈ s1.records ↔ r ∈ s2.records)) :
    BlockInEpoch (storeKeeper s1 codec fe) H = BlockInEpoch (storeKeeper s2 codec fe) H ∧
    GetEpochStartForBlock (storeKeeper s1 codec fe) H
      = GetEpochStartForBlock (storeKeeper s2 codec fe) H ∧
    GetNextEpoch (storeKeeper s1 codec fe) H = GetNextEpoch (storeKeeper s2 codec fe) H ∧
    GetPreviousEpochStartForBlock (storeKeeper s1 codec fe) H
      = GetPreviousEpochStartForBlock (storeKeeper s2 codec fe) H ∧
    BlocksToSave (storeKeeper s1 codec fe) H = BlocksToSave (storeKeeper s2 codec fe) H := by
  have hlook : ∀ key h, h ≤ H →
      (storeKeeper s1 codec fe).GetFixatedParamsForBlock key h
        = (storeKeeper s2 codec fe).GetFixatedParamsForBlock key h :=
    fun key h hh => storeLookup_congr s1 s2 H hu hsame key h hh
  have hd : (storeKeeper s1 codec fe).Deserialize = (storeKeeper s2 codec fe).Deserialize :=
    rfl
  have hf : (storeKeeper s1 codec fe).LavaFormatError
      = (storeKeeper s2 codec fe).LavaFormatError := rfl
  exact ⟨BlockInEpoch_congr _ _ H hd hlook H le_rfl,
    GetEpochStartForBlock_congr _ _ H hd hlook H le_rfl,
    GetNextEpoch_congr _ _ H hd hlook H le_rfl,
    GetPreviousEpochStartForBlock_congr _ _ H hH hd hf hlook
      (storeLookup_fix_le s2 .KeyEpochBlocks H),
    BlocksToSave_congr _ _ H hd hlook H le_rfl⟩

theorem results_ignore_later_fixations_witness :
    (BlockInEpoch (storeKeeper changeStore littleEndian formatError) 35
      = BlockInEpoch (storeKeeper laterChangeStore littleEndian formatError) 35 ∧
    GetEpochStartForBlock (storeKeeper changeStore littleEndian formatError) 35
      = GetEpochStartForBlock (storeKeeper laterChangeStore littleEndian formatError) 35 ∧
    GetNextEpoch (storeKeeper changeStore littleEndian formatError) 35
      = GetNextEpoch (storeKeeper laterChangeStore littleEndian formatError) 35 ∧
    GetPreviousEpochStartForBlock (storeKeeper changeStore littleEndian formatError) 35
      = GetPreviousEpochStartForBlock
          (storeKeeper laterChangeStore littleEndian formatError) 35 ∧
    BlocksToSave (storeKeeper changeStore littleEndian formatError) 35
      = BlocksToSave (storeKeeper laterChangeStore littleEndian formatError) 35) ∧
    BlocksToSave (storeKeeper emptyStore littleEndian formatError) 5
      = BlocksToSave (storeKeeper lateEpochStore littleEndian formatError) 5 :=
  ⟨results_ignore_later_fixations changeStore laterChangeStore littleEndian formatError 35
    (by decide) (by unfold UniqueHeights; decide)
    (by
      intro r hr
      simp only [changeStore, laterChangeStore, List.mem_cons, List.mem_singleton,
        List.not_mem_nil, or_false]
      constructor
      · rintro (h | h | h)
        · exact Or.inl h
        · exact Or.inr (Or.inl h)
        · subst h
          simp at hr
      · rintro (h | h | h | h)
        · exact Or.inl h
        · exact Or.inr (Or.inl h)
        · subst h
          simp at hr
        · subst h
          simp at hr),
   (results_ignore_later_fixations emptyStore lateEpochStore littleEndian formatError 5
    (by decide) (by unfold UniqueHeights; decide)
    (by
      intro r hr
      simp only [emptyStore, lateEpochStore, List.mem_cons, List.mem_singleton,
        List.not_mem_nil, or_false, false_iff]
      rintro (h | h) <;> (subst h; simp at hr))).2.2.2.2⟩

/-! ### Supporting facts on the error paths -/

/-- When both fixated reads fail, BlocksToSave returns an error whose message
holds the messages of both reads. -/
theorem BlocksToSave_both_fail (k : Keeper) (height a b : Nat) (e e2 : GoError)
    (h1 : EpochsToSave k height = (a, some e))
    (h2 : EpochBlocks k height = (b, some e2)) :
    BlocksToSave k height = .ok (mul64 a b,
      some (Errorf ("BlocksToSave param read errors " ++ e.Error ++ ", " ++ e2.Error))) := by
  simp [BlocksToSave, h1, h2]

/-- When exactly one of the fixated reads fails, BlocksToSave stops with a nil
dereference. -/
theorem BlocksToSave_one_fails (k : Keeper) (height a b : Nat) (err err2 : Option GoError)
    (h1 : EpochsToSave k height = (a, err))
    (h2 : EpochBlocks k height = (b, err2))
    (hx : err.isSome ≠ err2.isSome) :
    BlocksToSave k height = .error .nilDereference := by
  cases err <;> cases err2 <;> simp [BlocksToSave, h1, h2] at hx ⊢

/-- When the lookup fails with a record whose decoded length is not 0, IsEpochStart
returns false. -/
theorem IsEpochStart_false_of_error (k : Keeper) (ctx : Context) (r : FixatedParams)
    (e : GoError)
    (hl : k.GetFixatedParamsForBlock .KeyEpochBlocks
      (ctx.BlockHeight % (UINT64 : Int)).toNat = (r, some e))
    (hpos : u64 (k.Deserialize r.Parameter) ≠ 0) :
    IsEpochStart k ctx = .ok false := by
  simp [IsEpochStart, BlockInEpoch, hl, hpos]

/-- When the lookup returns a record whose decoded length is 0, IsEpochStart stops
with a division by zero, whatever the error of the lookup. -/
theorem IsEpochStart_zero_length (k : Keeper) (ctx : Context) (r : FixatedParams)
    (err : Option GoError)
    (hl : k.GetFixatedParamsForBlock .KeyEpochBlocks
      (ctx.BlockHeight % (UINT64 : Int)).toNat = (r, err))
    (hzero : u64 (k.Deserialize r.Parameter) = 0) :
    IsEpochStart k ctx = .error .divideByZero := by
  simp [IsEpochStart, BlockInEpoch, hl, hzero]

/-! ### Epoch start predicate, examples, dropped errors -/

/-- The uint64 conversion of a block height is below 2^64. -/
theorem currentBlock_lt (ctx : Context) :
    (ctx.BlockHeight % (UINT64 : Int)).toNat < UINT64 := by
  have hpos : (0 : Int) < (UINT64 : Int) := by unfold UINT64; norm_num
  have h1 := Int.emod_nonneg ctx.BlockHeight (ne_of_gt hpos)
  have h2 := Int.emod_lt_of_pos ctx.BlockHeight hpos
  omega

/-- C11: when the fixation read for the current height succeeds with decoded
length L > 0 (and fixation block <= current height), IsEpochStart returns a
boolean, and it returns true iff BlockInEpoch of the current height is 0, i.e.
iff current height - fixation block is a multiple of L. -/
theorem IsEpochStart_iff_offset_zero (k : Keeper) (ctx : Context) (cur L : Nat)
    (r : FixatedParams)
    (hc : (ctx.BlockHeight % (UINT64 : Int)).toNat = cur)
    (hl : k.GetFixatedParamsForBlock .KeyEpochBlocks cur = (r, none))
    (hL : u64 (k.Deserialize r.Parameter) = L) (hpos : 0 < L)
    (hfix : r.FixationBlock ≤ cur) :
    (∃ b : Bool, IsEpochStart k ctx = .ok b) ∧
    (IsEpochStart k ctx = .ok true ↔ BlockInEpoch k cur = .ok (0, none)) ∧
    (IsEpochStart k ctx = .ok true ↔ L ∣ cur - r.FixationBlock) := by
  have hlt : cur < UINT64 := by rw [← hc]; exact currentBlock_lt ctx
  have hb := BlockInEpoch_eq k cur L r hlt hl hL hpos hfix
  have hi : IsEpochStart k ctx = .ok ((cur - r.FixationBlock) % L == 0) := by
    simp [IsEpochStart, hc, hb]
  refine ⟨⟨_, hi⟩, ?_, ?_⟩
  · rw [hi, hb]
    simp
  · rw [hi, Nat.dvd_iff_mod_eq_zero]
    simp

theorem IsEpochStart_iff_offset_zero_witness :
    (∃ b : Bool, IsEpochStart changeKeeper ⟨47⟩ = .ok b) ∧
    (IsEpochStart changeKeeper ⟨47⟩ = .ok true ↔ BlockInEpoch changeKeeper 47 = .ok (0, none)) ∧
    (IsEpochStart changeKeeper ⟨47⟩ = .ok true ↔ 7 ∣ 47 - 40) :=
  IsEpochStart_iff_offset_zero changeKeeper ⟨47⟩ 47 7 ⟨[7], 40⟩ (by decide) (by decide)
    (by decide) (by decide) (by decide)

/-- When the lookup fails with error e and a record whose decoded length is not 0,
BlockInEpoch, GetEpochStartForBlock and GetNextEpoch return e as their error. -/
theorem error_propagates_of_nonzero_length (k : Keeper) (block : Nat) (r : FixatedParams)
    (e : GoError)
    (hl : k.GetFixatedParamsForBlock .KeyEpochBlocks block = (r, some e))
    (hne : u64 (k.Deserialize r.Parameter) ≠ 0) :
    (∃ v, BlockInEpoch k block = .ok (v, some e)) ∧
    (∃ st off, GetEpochStartForBlock k block = .ok (st, off, some e)) ∧
    (∃ v, GetNextEpoch k block = .ok (v, some e)) := by
  have hb : BlockInEpoch k block
      = .ok (sub64 block r.FixationBlock % u64 (k.Deserialize r.Parameter), some e) := by
    simp [BlockInEpoch, hl, hne]
  have hs : GetEpochStartForBlock k block
      = .ok (sub64 block (sub64 block r.FixationBlock % u64 (k.Deserialize r.Parameter)),
          sub64 block r.FixationBlock % u64 (k.Deserialize r.Parameter), some e) := by
    simp [GetEpochStartForBlock, hb]
  refine ⟨⟨_, hb⟩, ⟨_, _, hs⟩, ?_⟩
  simp [GetNextEpoch, hs, EpochBlocks, GetParamForBlock, hl]

/-- C12: at height 5 of lateEpochStore the epoch-length lookup fails with the error
NoFixationBeforeHeight and the zero record; none of BlockInEpoch,
GetEpochStartForBlock, GetNextEpoch and GetPreviousEpochStartForBlock returns
that error: each stops with a division by zero. -/
theorem error_not_propagated_on_zero_length :
    lateEpochKeeper.GetFixatedParamsForBlock .KeyEpochBlocks 5
      = (⟨[], 0⟩, some ⟨"NoFixationBeforeHeight"⟩) ∧
    BlockInEpoch lateEpochKeeper 5 = .error .divideByZero ∧
    GetEpochStartForBlock lateEpochKeeper 5 = .error .divideByZero ∧
    GetNextEpoch lateEpochKeeper 5 = .error .divideByZero ∧
    GetPreviousEpochStartForBlock lateEpochKeeper 5 = .error .divideByZero := by
  decide

/-- C13: boundary example. When the epoch-length lookup returns the fixation of
value 10 effective at height 0 (at height 25 and at height 19, the block before
the epoch of 25), GetEpochStartForBlock(25) returns start 20 and offset 5,
BlockInEpoch(25) returns 5, GetNextEpoch(25) returns 30 and
GetPreviousEpochStartForBlock(25) returns 10, all without error. -/
theorem boundary_example (k : Keeper) (r : FixatedParams)
    (h25 : k.GetFixatedParamsForBlock .KeyEpochBlocks 25 = (r, none))
    (h19 : k.GetFixatedParamsForBlock .KeyEpochBlocks 19 = (r, none))
    (hL : u64 (k.Deserialize r.Parameter) = 10) (hF : r.FixationBlock = 0) :
    GetEpochStartForBlock k 25 = .ok (20, 5, none) ∧
    BlockInEpoch k 25 = .ok (5, none) ∧
    GetNextEpoch k 25 = .ok (30, none) ∧
    GetPreviousEpochStartForBlock k 25 = .ok (10, none) := by
  have hb25 := BlockInEpoch_eq k 25 10 r (by decide) h25 hL (by decide) (by omega)
  have hs25 := GetEpochStartForBlock_eq k 25 10 r (by decide) h25 hL (by decide) (by omega)
  have hs19 := GetEpochStartForBlock_eq k 19 10 r (by decide) h19 hL (by decide) (by omega)
  rw [hF] at hb25 hs25 hs19
  have hs25n : GetEpochStartForBlock k 25 = .ok (20, 5, none) := hs25
  have hs19n : GetEpochStartForBlock k (20 - 1) = .ok (10, 9, none) := hs19
  refine ⟨hs25n, hb25, ?_, ?_⟩
  · have hn : GetNextEpoch k 25 = .ok ((20 + 10) % UINT64, none) := by
      simp [GetNextEpoch, hs25n, EpochBlocks, GetParamForBlock_eq k _ 25 r h25, hL, add64]
    rw [hn]
    rfl
  · exact GetPreviousEpochStartForBlock_pos k 25 20 5 10 9 none hs25n (by decide) hs19n

theorem boundary_example_witness :
    GetEpochStartForBlock boundaryKeeper 25 = .ok (20, 5, none) ∧
    BlockInEpoch boundaryKeeper 25 = .ok (5, none) ∧
    GetNextEpoch boundaryKeeper 25 = .ok (30, none) ∧
    GetPreviousEpochStartForBlock boundaryKeeper 25 = .ok (10, none) :=
  boundary_example boundaryKeeper ⟨[10], 0⟩ (by decide) (by decide) (by decide) (by decide)

/-- UnstakeHoldBlocks is the value component of the fixated read: the error
component never reaches the caller. -/
theorem UnstakeHoldBlocks_drops_error (k : Keeper) (block : Nat) :
    UnstakeHoldBlocks k block = (GetParamForBlock k .KeyUnstakeHoldBlocks block).1 := rfl

/-- C14: at height 5 of lateUnstakeStore the fixated read of the
unstake-hold-blocks parameter fails (the height predates its only fixation),
and UnstakeHoldBlocks returns 0, the very value it returns on zeroUnstakeStore,
where the read succeeds with the fixated value 0. -/
theorem UnstakeHoldBlocks_failure_looks_like_zero :
    GetParamForBlock lateUnstakeKeeper .KeyUnstakeHoldBlocks 5
      = (0, some ⟨"NoFixationBeforeHeight"⟩) ∧
    UnstakeHoldBlocks lateUnstakeKeeper 5 = 0 ∧
    GetParamForBlock zeroUnstakeKeeper .KeyUnstakeHoldBlocks 5 = (0, none) ∧
    UnstakeHoldBlocks zeroUnstakeKeeper 5 = 0 := by
  decide

/-! ### Geometry of the epoch grid over the store -/

/-- What a successful lookup of a store keeper says about the log. -/
theorem storeLookup_ok_inv (s : FixationStore) (key : ParamKey) (h : Nat) (r : FixatedParams)
    (hl : storeLookup s key h = (r, none)) :
    ∃ b ∈ s.records, b.key = key ∧ b.effectiveHeight ≤ h ∧
      r = ⟨b.value, b.effectiveHeight⟩ ∧
      ∀ x ∈ s.records, x.key = key → x.effectiveHeight ≤ h →
        x.effectiveHeight ≤ b.effectiveHeight := by
  unfold storeLookup at hl
  cases hg : GetAsOf s.records key h with
  | error e => rw [hg] at hl; simp at hl
  | ok b =>
    rw [hg] at hl
    simp only [Prod.mk.injEq, and_true] at hl
    unfold GetAsOf at hg
    cases hsel : selectAsOf s.records key h with
    | none => rw [hsel] at hg; simp at hg
    | some c =>
      rw [hsel] at hg
      simp only [Except.ok.injEq] at hg
      subst hg
      obtain ⟨hm, hk, hh⟩ := selectAsOf_mem s.records key h c hsel
      exact ⟨c, hm, hk, hh, hl.symm, selectAsOf_max s.records key h c hsel⟩

/-- A height at which the same records qualify as greatest resolves to the same
fixation. -/
theorem storeLookup_same (s : FixationStore) (key : ParamKey) (H h : Nat) (r : FixatedParams)
    (hu : UniqueHeights s.records)
    (hl : storeLookup s key H = (r, none))
    (hfix : r.FixationBlock ≤ h)
    (hno : ∀ x ∈ s.records, x.key = key → x.effectiveHeight ≤ h → x.effectiveHeight ≤ H) :
    storeLookup s key h = (r, none) := by
  obtain ⟨b, hm, hk, _, hr, hmax⟩ := storeLookup_ok_inv s key H r hl
  subst hr
  exact storeLookup_eq s key h b hu hm hk hfix
    (fun x hx hxk hxh => hmax x hx hxk (hno x hx hxk hxh))

/-- The start of an epoch lies on the grid anchored at the fixation block. -/
theorem grid_start (F H L : Nat) (hF : F ≤ H) :
    F ≤ H - (H - F) % L ∧ (H - (H - F) % L - F) % L = 0 := by
  have hdiv := Nat.mod_add_div (H - F) L
  have hle : (H - F) % L ≤ H - F := Nat.mod_le _ _
  refine ⟨by omega, ?_⟩
  have : H - (H - F) % L - F = L * ((H - F) / L) := by omega
  rw [this]
  exact Nat.mul_mod_right _ _

/-- Offset of a height less than one length above a grid point. -/
theorem mod_on_grid (F st h L : Nat) (hF : F ≤ st) (hd : (st - F) % L = 0)
    (hs : st ≤ h) (hlt : h - st < L) : (h - F) % L = h - st := by
  obtain ⟨q, hq⟩ := Nat.dvd_of_mod_eq_zero hd
  have : h - F = (h - st) + L * q := by omega
  rw [this, Nat.add_mul_mod_self_left]
  exact Nat.mod_eq_of_lt hlt

/-- What a GetEpochStartForBlock without error says about the lookup. -/
theorem GetEpochStartForBlock_ok_inv (k : Keeper) (block start offset : Nat)
    (hs : GetEpochStartForBlock k block = .ok (start, offset, none)) :
    ∃ r : FixatedParams, k.GetFixatedParamsForBlock .KeyEpochBlocks block = (r, none) ∧
      0 < u64 (k.Deserialize r.Parameter) := by
  have hb := (GetEpochStartForBlock_ok k block start offset none hs).1
  unfold BlockInEpoch at hb
  cases hl : k.GetFixatedParamsForBlock .KeyEpochBlocks block with
  | mk r err =>
    rw [hl] at hb
    simp only at hb
    split_ifs at hb with h0
    simp only [Except.ok.injEq, Prod.mk.injEq] at hb
    rw [hb.2]
    exact ⟨r, rfl, Nat.pos_of_ne_zero h0⟩

/-- Over a store, every height between the start of the epoch of H and H resolves
to the fixation of H and to the same start. -/
theorem store_epoch_start_stable (s : FixationStore) (codec : List Nat → Nat)
    (fe : String → GoError → List (String × String) → GoError)
    (H start offset : Nat) (hH : H < UINT64) (hu : UniqueHeights s.records)
    (hs : GetEpochStartForBlock (storeKeeper s codec fe) H = .ok (start, offset, none)) :
    start ≤ H ∧ offset = H - start ∧
    ∀ h : Nat, start ≤ h → h ≤ H →
      (storeKeeper s codec fe).GetFixatedParamsForBlock .KeyEpochBlocks h
        = (storeKeeper s codec fe).GetFixatedParamsForBlock .KeyEpochBlocks H ∧
      GetEpochStartForBlock (storeKeeper s codec fe) h = .ok (start, h - start, none) := by
  obtain ⟨r, hl, hpos⟩ := GetEpochStartForBlock_ok_inv _ H start offset hs
  have hfix : r.FixationBlock ≤ H := by
    have := storeLookup_fix_le s .KeyEpochBlocks H
    have hl2 : storeLookup s .KeyEpochBlocks H = (r, none) := hl
    rw [hl2] at this
    exact this
  have heq := GetEpochStartForBlock_eq (storeKeeper s codec fe) H _ r hH hl rfl hpos hfix
  rw [hs] at heq
  simp only [Except.ok.injEq, Prod.mk.injEq, and_true] at heq
  obtain ⟨hst, hoff⟩ := heq
  obtain ⟨hg1, hg2⟩ := grid_start r.FixationBlock H (u64 (codec r.Parameter)) hfix
  have hmodlt : (H - r.FixationBlock) % u64 (codec r.Parameter)
      < u64 (codec r.Parameter) := Nat.mod_lt _ hpos
  have hmodle : (H - r.FixationBlock) % u64 (codec r.Parameter) ≤ H :=
    le_trans (Nat.mod_le _ _) (Nat.sub_le _ _)
  have hD : (storeKeeper s codec fe).Deserialize = codec := rfl
  rw [hD] at hst hoff
  refine ⟨by omega, by omega, ?_⟩
  intro h hsh hhH
  have hlh : (storeKeeper s codec fe).GetFixatedParamsForBlock .KeyEpochBlocks h = (r, none) :=
    storeLookup_same s .KeyEpochBlocks H h r hu hl (by omega)
      (fun x _ _ hxh => le_trans hxh hhH)
  refine ⟨by rw [hlh, hl], ?_⟩
  have hh := GetEpochStartForBlock_eq (storeKeeper s codec fe) h _ r (by omega) hlh rfl hpos
    (by omega)
  rw [hD] at hh
  have hmod : (h - r.FixationBlock) % u64 (codec r.Parameter) = h - start :=
    mod_on_grid r.FixationBlock start h _ (by omega) (by rw [hst]; exact hg2) hsh (by omega)
  rw [hh, hmod]
  have : h - (h - start) = start := by omega
  rw [this]

/-- C15: arithmetic safety. Over a store whose lookup is GetAsOf, a successful
epoch-length lookup at a block returns a record with FixationBlock <= block;
with decoded length L > 0 BlockInEpoch and GetEpochStartForBlock return (no
division by zero), and neither block - FixationBlock nor block - blockInEpoch
wraps around: both uint64 differences equal the differences of the natural
numbers, the subtrahend being at most the block. -/
theorem arithmetic_safety (s : FixationStore) (codec : List Nat → Nat)
    (fe : String → GoError → List (String × String) → GoError)
    (block L : Nat) (r : FixatedParams) (hb : block < UINT64)
    (hl : (storeKeeper s codec fe).GetFixatedParamsForBlock .KeyEpochBlocks block = (r, none))
    (hL : u64 (codec r.Parameter) = L) (hpos : 0 < L) :
    r.FixationBlock ≤ block ∧
    sub64 block r.FixationBlock = block - r.FixationBlock ∧
    ∃ blockInEpoch : Nat,
      BlockInEpoch (storeKeeper s codec fe) block = .ok (blockInEpoch, none) ∧
      blockInEpoch ≤ block ∧
      sub64 block blockInEpoch = block - blockInEpoch ∧
      GetEpochStartForBlock (storeKeeper s codec fe) block
        = .ok (block - blockInEpoch, blockInEpoch, none) := by
  have hfix : r.FixationBlock ≤ block := by
    have := storeLookup_fix_le s .KeyEpochBlocks block
    have hl2 : storeLookup s .KeyEpochBlocks block = (r, none) := hl
    rw [hl2] at this
    exact this
  have hle : (block - r.FixationBlock) % L ≤ block :=
    le_trans (Nat.mod_le _ _) (Nat.sub_le _ _)
  exact ⟨hfix, sub64_of_le hb hfix, (block - r.FixationBlock) % L,
    BlockInEpoch_eq _ block L r hb hl hL hpos hfix, hle, sub64_of_le hb hle,
    GetEpochStartForBlock_eq _ block L r hb hl hL hpos hfix⟩

theorem arithmetic_safety_witness :
    (40 : Nat) ≤ 44 ∧
    sub64 44 40 = 44 - 40 ∧
    ∃ blockInEpoch : Nat,
      BlockInEpoch (storeKeeper changeStore littleEndian formatError) 44
        = .ok (blockInEpoch, none) ∧
      blockInEpoch ≤ 44 ∧
      sub64 44 blockInEpoch = 44 - blockInEpoch ∧
      GetEpochStartForBlock (storeKeeper changeStore littleEndian formatError) 44
        = .ok (44 - blockInEpoch, blockInEpoch, none) :=
  arithmetic_safety changeStore littleEndian formatError 44 7 ⟨[7], 40⟩ (by decide)
    (by decide) (by decide) (by decide)

/-- C17: epoch start is stable within an epoch. Over a store whose lookup is
GetAsOf (with unique heights per key), if GetEpochStartForBlock(H) returns start
without error, then every height h with start <= h <= H resolves to the same
fixation and GetEpochStartForBlock(h) returns the same start; in particular
GetEpochStartForBlock(start) returns start with offset 0. -/
theorem epoch_start_stable_within_epoch (s : FixationStore) (codec : List Nat → Nat)
    (fe : String → GoError → List (String × String) → GoError)
    (H start offset : Nat) (hH : H < UINT64) (hu : UniqueHeights s.records)
    (hs : GetEpochStartForBlock (storeKeeper s codec fe) H = .ok (start, offset, none)) :
    (∀ h : Nat, start ≤ h → h ≤ H →
      (storeKeeper s codec fe).GetFixatedParamsForBlock .KeyEpochBlocks h
        = (storeKeeper s codec fe).GetFixatedParamsForBlock .KeyEpochBlocks H ∧
      ∃ off : Nat, GetEpochStartForBlock (storeKeeper s codec fe) h = .ok (start, off, none)) ∧
    GetEpochStartForBlock (storeKeeper s codec fe) start = .ok (start, 0, none) := by
  obtain ⟨hle, _, hst⟩ := store_epoch_start_stable s codec fe H start offset hH hu hs
  constructor
  · intro h h1 h2
    exact ⟨(hst h h1 h2).1, _, (hst h h1 h2).2⟩
  · have := (hst start le_rfl hle).2
    rwa [Nat.sub_self] at this

theorem epoch_start_stable_within_epoch_witness :
    (∀ h : Nat, 30 ≤ h → h ≤ 35 →
      (storeKeeper changeStore littleEndian formatError).GetFixatedParamsForBlock
          .KeyEpochBlocks h
        = (storeKeeper changeStore littleEndian formatError).GetFixatedParamsForBlock
          .KeyEpochBlocks 35 ∧
      ∃ off : Nat, GetEpochStartForBlock (storeKeeper changeStore littleEndian formatError) h
        = .ok (30, off, none)) ∧
    GetEpochStartForBlock (storeKeeper changeStore littleEndian formatError) 30
      = .ok (30, 0, none) :=
  epoch_start_stable_within_epoch changeStore littleEndian formatError 35 30 5 (by decide)
    (by unfold UniqueHeights; decide) (by decide)

/-- C18: over a store whose lookup is GetAsOf (with unique heights per key),
whenever GetPreviousEpochStartForBlock(H) returns a value without error, that
value is strictly less than the start of the epoch containing H and is itself
an epoch start: BlockInEpoch of it is 0. -/
theorem previous_epoch_start_is_epoch_start (s : FixationStore) (codec : List Nat → Nat)
    (fe : String → GoError → List (String × String) → GoError)
    (H previous : Nat) (hH : H < UINT64) (hu : UniqueHeights s.records)
    (hp : GetPreviousEpochStartForBlock (storeKeeper s codec fe) H = .ok (previous, none)) :
    ∃ start offset : Nat,
      GetEpochStartForBlock (storeKeeper s codec fe) H = .ok (start, offset, none) ∧
      previous < start ∧
      BlockInEpoch (storeKeeper s codec fe) previous = .ok (0, none) := by
  unfold GetPreviousEpochStartForBlock at hp
  cases hs : GetEpochStartForBlock (storeKeeper s codec fe) H with
  | error p => rw [hs] at hp; simp at hp
  | ok v =>
    obtain ⟨start, offset, err⟩ := v
    rw [hs] at hp
    simp only at hp
    split_ifs at hp with h0
    · simp at hp
    · cases hs2 : GetEpochStartForBlock (storeKeeper s codec fe) (sub64 start 1) with
      | error p => rw [hs2] at hp; simp at hp
      | ok w =>
        obtain ⟨p, o, err2⟩ := w
        rw [hs2] at hp
        simp only [Except.ok.injEq, Prod.mk.injEq] at hp
        obtain ⟨hpp, herr⟩ := hp
        have herr1 : err = none := by
          cases err with
          | none => rfl
          | some e => simp at herr
        subst herr1
        have herr2 : err2 = none := by simpa using herr
        subst herr2
        subst hpp
        obtain ⟨hsH, _, _⟩ := store_epoch_start_stable s codec fe H start offset hH hu hs
        have h1 : sub64 start 1 = start - 1 :=
          sub64_of_le (lt_of_le_of_lt hsH hH) (by omega)
        rw [h1] at hs2
        obtain ⟨hple, _, hst⟩ :=
          store_epoch_start_stable s codec fe (start - 1) p o (by omega) hu hs2
        have hself := (hst p le_rfl hple).2
        rw [Nat.sub_self] at hself
        exact ⟨start, offset, rfl, by omega,
          (GetEpochStartForBlock_ok _ p p 0 none hself).1⟩

theorem previous_epoch_start_is_epoch_start_witness :
    ∃ start offset : Nat,
      GetEpochStartForBlock (storeKeeper changeStore littleEndian formatError) 44
        = .ok (start, offset, none) ∧
      30 < start ∧
      BlockInEpoch (storeKeeper changeStore littleEndian formatError) 30 = .ok (0, none) :=
  previous_epoch_start_is_epoch_start changeStore littleEndian formatError 44 30 (by decide)
    (by unfold UniqueHeights; decide) (by decide)

/-- C19: epoch start is monotone in height. Over a store whose lookup is GetAsOf
(with unique heights per key), for heights H1 <= H2 at which
GetEpochStartForBlock returns without error, the start returned at H1 is <= the
start returned at H2. -/
theorem epoch_start_monotone (s : FixationStore) (codec : List Nat → Nat)
    (fe : String → GoError → List (String × String) → GoError)
    (H1 H2 start1 offset1 start2 offset2 : Nat)
    (h12 : H1 ≤ H2) (hH : H2 < UINT64) (hu : UniqueHeights s.records)
    (hs1 : GetEpochStartForBlock (storeKeeper s codec fe) H1 = .ok (start1, offset1, none))
    (hs2 : GetEpochStartForBlock (storeKeeper s codec fe) H2 = .ok (start2, offset2, none)) :
    start1 ≤ start2 := by
  obtain ⟨hle1, _, _⟩ :=
    store_epoch_start_stable s codec fe H1 start1 offset1 (lt_of_le_of_lt h12 hH) hu hs1
  obtain ⟨_, _, hst2⟩ := store_epoch_start_stable s codec fe H2 start2 offset2 hH hu hs2
  by_cases hc : start2 ≤ H1
  · have h := (hst2 H1 hc h12).2
    rw [hs1] at h
    simp only [Except.ok.injEq, Prod.mk.injEq, and_true] at h
    exact le_of_eq h.1
  · omega

theorem epoch_start_monotone_witness :
    GetEpochStartForBlock (storeKeeper threeStepStore littleEndian formatError) 19
      = .ok (18, 1, none) ∧
    GetEpochStartForBlock (storeKeeper threeStepStore littleEndian formatError) 25
      = .ok (20, 5, none) ∧
    (18 : Nat) ≤ 20 :=
  ⟨by decide, by decide,
    epoch_start_monotone threeStepStore littleEndian formatError 19 25 18 1 20 5 (by decide)
      (by decide) (by unfold UniqueHeights; decide) (by decide) (by decide)⟩

/-- C16 (amended): GetNextEpoch is a correct prediction when no parameter change
intervenes and the sum does not wrap around. Over a store whose lookup is
GetAsOf (with unique heights per key), let GetEpochStartForBlock(H) return
start and GetNextEpoch(H) return next, both without error, with next > H (that
is, start + length stayed below 2^64). If no epoch-length fixation has
effectiveHeight in (H, next], then BlockInEpoch(next) = 0,
GetEpochStartForBlock(next) returns next, and
GetPreviousEpochStartForBlock(next) returns start. -/
theorem next_epoch_prediction (s : FixationStore) (codec : List Nat → Nat)
    (fe : String → GoError → List (String × String) → GoError)
    (H start offset next : Nat) (hH : H < UINT64) (hu : UniqueHeights s.records)
    (hs : GetEpochStartForBlock (storeKeeper s codec fe) H = .ok (start, offset, none))
    (hn : GetNextEpoch (storeKeeper s codec fe) H = .ok (next, none))
    (hov : H < next)
    (hno : ∀ x ∈ s.records, x.key = .KeyEpochBlocks →
      ¬ (H < x.effectiveHeight ∧ x.effectiveHeight ≤ next)) :
    BlockInEpoch (storeKeeper s codec fe) next = .ok (0, none) ∧
    GetEpochStartForBlock (storeKeeper s codec fe) next = .ok (next, 0, none) ∧
    GetPreviousEpochStartForBlock (storeKeeper s codec fe) next = .ok (start, none) := by
  obtain ⟨r, hl, hpos⟩ := GetEpochStartForBlock_ok_inv _ H start offset hs
  have hD : (storeKeeper s codec fe).Deserialize = codec := rfl
  rw [hD] at hpos
  have hfix : r.FixationBlock ≤ H := by
    have := storeLookup_fix_le s .KeyEpochBlocks H
    have hl2 : storeLookup s .KeyEpochBlocks H = (r, none) := hl
    rw [hl2] at this
    exact this
  have heq := GetEpochStartForBlock_eq (storeKeeper s codec fe) H _ r hH hl rfl hpos hfix
  rw [hs] at heq
  simp only [Except.ok.injEq, Prod.mk.injEq, and_true] at heq
  obtain ⟨hst, _⟩ := heq
  rw [hD] at hst
  obtain ⟨hg1, hg2⟩ := grid_start r.FixationBlock H (u64 (codec r.Parameter)) hfix
  rw [← hst] at hg1 hg2
  have hmodlt : (H - r.FixationBlock) % u64 (codec r.Parameter)
      < u64 (codec r.Parameter) := Nat.mod_lt _ hpos
  have hmodle : (H - r.FixationBlock) % u64 (codec r.Parameter) ≤ H :=
    le_trans (Nat.mod_le _ _) (Nat.sub_le _ _)
  have hLlt : u64 (codec r.Parameter) < UINT64 := by
    unfold u64
    exact Nat.mod_lt _ (by unfold UINT64; omega)
  -- the value of next
  have hnext : next = (start + u64 (codec r.Parameter)) % UINT64 := by
    have h := hn
    simp only [GetNextEpoch, hs, EpochBlocks, GetParamForBlock_eq _ _ H r hl, add64,
      Except.ok.injEq, Prod.mk.injEq, and_true] at h
    rw [hD] at h
    exact h.symm
  have hsum : start + u64 (codec r.Parameter) < UINT64 := by
    by_contra hge
    have hwrap : (start + u64 (codec r.Parameter)) % UINT64
        = start + u64 (codec r.Parameter) - UINT64 := by
      rw [Nat.mod_eq_sub_mod (by omega)]
      exact Nat.mod_eq_of_lt (by omega)
    omega
  have hnx : next = start + u64 (codec r.Parameter) := by
    rw [hnext]
    exact Nat.mod_eq_of_lt hsum
  -- the fixation of H is still the one in effect at next and at next - 1
  have hlook : ∀ h : Nat, H ≤ h → h ≤ next →
      (storeKeeper s codec fe).GetFixatedParamsForBlock .KeyEpochBlocks h = (r, none) := by
    intro h h1 h2
    refine storeLookup_same s .KeyEpochBlocks H h r hu hl (by omega) ?_
    intro x hx hxk hxh
    by_contra hc
    exact hno x hx hxk ⟨by omega, by omega⟩
  have hmodn : (next - r.FixationBlock) % u64 (codec r.Parameter) = 0 := by
    have : next - r.FixationBlock = (start - r.FixationBlock) + u64 (codec r.Parameter) := by
      omega
    rw [this, Nat.add_mod_right]
    exact hg2
  have hsn := GetEpochStartForBlock_eq (storeKeeper s codec fe) next _ r (by omega)
    (hlook next (by omega) le_rfl) rfl hpos (by omega)
  rw [hD, hmodn, Nat.sub_zero] at hsn
  have hmodp : (next - 1 - r.FixationBlock) % u64 (codec r.Parameter) = next - 1 - start :=
    mod_on_grid r.FixationBlock start (next - 1) _ hg1 hg2 (by omega) (by omega)
  have hsp := GetEpochStartForBlock_eq (storeKeeper s codec fe) (next - 1) _ r (by omega)
    (hlook (next - 1) (by omega) (by omega)) rfl hpos (by omega)
  rw [hD, hmodp] at hsp
  have hback : next - 1 - (next - 1 - start) = start := by omega
  rw [hback] at hsp
  exact ⟨(GetEpochStartForBlock_ok _ next next 0 none hsn).1, hsn,
    GetPreviousEpochStartForBlock_pos _ next next 0 start _ none hsn (by omega) hsp⟩

theorem next_epoch_prediction_witness :
    BlockInEpoch (storeKeeper changeStore littleEndian formatError) 30 = .ok (0, none) ∧
    GetEpochStartForBlock (storeKeeper changeStore littleEndian formatError) 30
      = .ok (30, 0, none) ∧
    GetPreviousEpochStartForBlock (storeKeeper changeStore littleEndian formatError) 30
      = .ok (20, none) :=
  next_epoch_prediction changeStore littleEndian formatError 25 20 5 30 (by decide)
    (by unfold UniqueHeights; decide) (by decide) (by decide) (by decide) (by decide)

/-- C16 as stated fails when the sum wraps around: in hugeEpochStore the epoch
length is 2^63 from height 0; at H = 2^63 + 5 the epoch starts at 2^63 and
GetNextEpoch returns 2^63 + 2^63 modulo 2^64 = 0. No epoch-length fixation has
effectiveHeight in (H, 0], yet GetPreviousEpochStartForBlock(0) is the
beyond-zero error, not the start 2^63 of the epoch of H. -/
theorem next_epoch_wraps_around :
    GetEpochStartForBlock hugeEpochKeeper 9223372036854775813
      = .ok (9223372036854775808, 5, none) ∧
    GetNextEpoch hugeEpochKeeper 9223372036854775813 = .ok (0, none) ∧
    (∀ x ∈ hugeEpochStore.records, x.key = .KeyEpochBlocks →
      ¬ (9223372036854775813 < x.effectiveHeight ∧ x.effectiveHeight ≤ 0)) ∧
    GetPreviousEpochStartForBlock hugeEpochKeeper 0
      = .ok (0, some (beyondZeroError hugeEpochKeeper)) ∧
    GetPreviousEpochStartForBlock hugeEpochKeeper 0 ≠ .ok (9223372036854775808, none) := by
  decide

end Lava
